import Mathlib

/-!
Verification of the devdocbot retrieval core (chunker + vector store).

The development shallowly embeds the TypeScript sources:

* `src/vectorStore/chunker.ts` — `CodeChunker.splitIntoChunks`,
  `CodeChunker.detectChunkType`;
* `src/vectorStore/index.ts` — `VectorStore.cosineSimilarity`,
  `VectorStore.search`, `VectorStore.addChunks`, `VectorStore.save`,
  `VectorStore.initialize` (modelled here as `initStore`, the snapshot-loading
  part), `VectorStore.deleteCollection`.

JavaScript strings are modelled as `List Char`; JavaScript numbers used in
embeddings are modelled by an arbitrary linearly ordered field (instantiated
at `ℝ` with `Real.sqrt` for the similarity formula, and at `ℚ` for executable
witnesses).  Fallible operations (`throw`) are modelled with `Except` /
`Option`-valued results.
-/

/-! ## Chunker (src/vectorStore/chunker.ts) -/

/--
Embedding of the `while` loop of `CodeChunker.splitIntoChunks`:
starting from `start`, repeatedly push `text.slice(start, start + chunkSize)`
and advance `start` by `chunkSize - chunkOverlap`.  `text.slice(i, j)` on
in-range nonnegative indices is `(text.drop i).take (j - i)`.
The source loop diverges when `chunkOverlap ≥ chunkSize` (the step is ≤ 0);
the embedding returns `[]` in that case, and every theorem below assumes
`chunkOverlap < chunkSize`, the regime the specification requires.
-/
def splitGo (chunkSize chunkOverlap : Nat) (text : List Char) (start : Nat) :
    List (List Char) :=
  if _h : start < text.length ∧ chunkOverlap < chunkSize then
    ((text.drop start).take chunkSize) ::
      splitGo chunkSize chunkOverlap text (start + (chunkSize - chunkOverlap))
  else
    []
termination_by text.length - start
decreasing_by
  simp_wf
  omega

/-- Embedding of `CodeChunker.splitIntoChunks` (chunker.ts lines 12–26). -/
def splitIntoChunks (chunkSize chunkOverlap : Nat) (text : List Char) :
    List (List Char) :=
  splitGo chunkSize chunkOverlap text 0

/--
Reconstruction operator taken from the specification's wording: concatenate
the chunk contents after removing the first `chunkOverlap` characters of every
chunk except the first.
-/
def reconstruct (chunkOverlap : Nat) : List (List Char) → List Char
  | [] => []
  | c :: rest => c ++ (rest.map (List.drop chunkOverlap)).flatten

/-- Whitespace test used to model `String.prototype.trim`. -/
def isJsSpace (c : Char) : Bool :=
  c = ' ' || c = '\t' || c = '\n' || c = '\r' || c = '\x0b' || c = '\x0c'

/-- Model of `content.trim()`: strip whitespace from both ends. -/
def jsTrim (l : List Char) : List Char :=
  ((l.dropWhile isJsSpace).reverse.dropWhile isJsSpace).reverse

/-- Model of `s.startsWith(p)` on character lists (text first, pattern second). -/
def startsWith : List Char → List Char → Bool
  | _, [] => true
  | [], _ :: _ => false
  | c :: cs, p :: ps => (c == p) && startsWith cs ps

/-- The three chunk kinds produced by `CodeChunker.detectChunkType`. -/
inductive ChunkType : Type
  | code : ChunkType
  | documentation : ChunkType
  | comment : ChunkType
deriving DecidableEq, Repr

/-- Embedding of `CodeChunker.detectChunkType` (chunker.ts lines 28–37). -/
def detectChunkType (content : List Char) : ChunkType :=
  if startsWith (jsTrim content) ['/', '*', '*'] || startsWith (jsTrim content) ['/', '*'] then
    ChunkType.documentation
  else if startsWith (jsTrim content) ['/', '/'] then
    ChunkType.comment
  else
    ChunkType.code

/-! ## Chunker lemmas -/

/--
Dropping the first `chunkOverlap` characters of every window produced from
position `start` and concatenating yields exactly the text from position
`start + chunkOverlap` on.
-/
theorem splitGo_flatten_drop (chunkSize chunkOverlap : Nat) (text : List Char)
    (h : chunkOverlap < chunkSize) (start : Nat) :
    ((splitGo chunkSize chunkOverlap text start).map (List.drop chunkOverlap)).flatten
      = text.drop (start + chunkOverlap) := by
  induction start using splitGo.induct chunkSize chunkOverlap text with
  | case1 start hcond ih =>
    rw [splitGo, dif_pos hcond]
    simp only [List.map_cons, List.flatten_cons, ih]
    rw [List.drop_take, List.drop_drop]
    have h2 : List.drop (start + (chunkSize - chunkOverlap) + chunkOverlap) text
        = List.drop (chunkSize - chunkOverlap) (List.drop (start + chunkOverlap) text) := by
      rw [List.drop_drop]
      congr 1
      omega
    rw [h2, List.take_append_drop]
  | case2 start hcond =>
    rw [splitGo, dif_neg hcond]
    have hlen : text.length ≤ start := by
      by_contra hlt
      exact hcond ⟨by omega, h⟩
    simp only [List.map_nil, List.flatten_nil]
    exact (List.drop_eq_nil_of_le (by omega)).symm

/--
Window characterization: the `i`-th window produced from position `start`
is the `chunkSize`-character slice of the text beginning at
`start + i * (chunkSize - chunkOverlap)`, and it exists exactly when that
position lies inside the text.
-/
theorem splitGo_getElem? (chunkSize chunkOverlap : Nat) (text : List Char)
    (h : chunkOverlap < chunkSize) (start : Nat) :
    ∀ i : Nat, (splitGo chunkSize chunkOverlap text start)[i]? =
      if start + i * (chunkSize - chunkOverlap) < text.length then
        some ((text.drop (start + i * (chunkSize - chunkOverlap))).take chunkSize)
      else none := by
  induction start using splitGo.induct chunkSize chunkOverlap text with
  | case1 start hcond ih =>
    intro i
    rw [splitGo, dif_pos hcond]
    cases i with
    | zero =>
      simp [hcond.1]
    | succ n =>
      simp only [List.getElem?_cons_succ]
      rw [ih n]
      have harith : start + (chunkSize - chunkOverlap) + n * (chunkSize - chunkOverlap)
          = start + (n + 1) * (chunkSize - chunkOverlap) := by ring
      rw [harith]
  | case2 start hcond =>
    intro i
    rw [splitGo, dif_neg hcond]
    have hlen : text.length ≤ start := by
      by_contra hlt
      exact hcond ⟨by omega, h⟩
    rw [if_neg (Nat.not_lt.mpr (le_trans hlen (Nat.le_add_right _ _)))]
    simp

/-! ## Claims C1 and C8 (splitting) -/

/--
Claim C1, counterexample.  With `chunkSize = 3`, `chunkOverlap = 2` (so
`chunkSize > chunkOverlap ≥ 0`) and input `"abcd"`, the chunker produces the
windows `"abc", "bcd", "cd", "d"`: the window at index 2 is shorter than
`chunkSize` although it is not the final window, and the windows at indices
2 and 3 overlap by only 1 character instead of `chunkOverlap = 2`.  This
refutes the claim's parenthetical "only the final window may be shorter than
`chunkSize`" and its "consecutive windows overlap by exactly `chunkOverlap`
characters".
-/
theorem splitIntoChunks_overlap_claim_counterexample :
    splitIntoChunks 3 2 ['a', 'b', 'c', 'd']
      = [['a', 'b', 'c'], ['b', 'c', 'd'], ['c', 'd'], ['d']] ∧
    (splitIntoChunks 3 2 ['a', 'b', 'c', 'd']).map List.length = [3, 3, 2, 1] := by
  constructor
  · simp [splitIntoChunks, splitGo]
  · simp [splitIntoChunks, splitGo]

/--
Claim C1, amended.  For every `chunkSize > chunkOverlap ≥ 0` and every text,
the chunker produces the ordered sequence of windows whose `i`-th element is
the `chunkSize`-character slice starting at `i * (chunkSize - chunkOverlap)`
(present exactly while that start position lies inside the text) — so the
windows cover the text start-to-end with no gaps, every window except those
truncated by the end of the text has length `chunkSize`, and a run of
trailing windows (not only the final one) may be shorter — and concatenating
the chunk contents with the first `chunkOverlap` characters dropped from
every chunk after the first exactly reconstructs the original text.
-/
theorem splitIntoChunks_windows_and_reconstruct (chunkSize chunkOverlap : Nat)
    (h : chunkOverlap < chunkSize) (text : List Char) :
    reconstruct chunkOverlap (splitIntoChunks chunkSize chunkOverlap text) = text ∧
    ∀ i : Nat, (splitIntoChunks chunkSize chunkOverlap text)[i]? =
      if i * (chunkSize - chunkOverlap) < text.length then
        some ((text.drop (i * (chunkSize - chunkOverlap))).take chunkSize)
      else none := by
  constructor
  · rw [splitIntoChunks, splitGo]
    by_cases h0 : 0 < text.length
    · rw [dif_pos ⟨h0, h⟩, reconstruct]
      rw [splitGo_flatten_drop chunkSize chunkOverlap text h]
      have hsum : 0 + (chunkSize - chunkOverlap) + chunkOverlap = chunkSize := by omega
      rw [hsum]
      simp [List.take_append_drop]
    · rw [dif_neg (by omega)]
      have : text = [] := List.eq_nil_of_length_eq_zero (by omega)
      simp [this, reconstruct]
  · intro i
    rw [splitIntoChunks, splitGo_getElem? chunkSize chunkOverlap text h 0 i]
    simp

/--
Witness for C1 (amended) at `chunkSize = 2`, `chunkOverlap = 1`,
text `"ab"`, window index `0`.
-/
theorem splitIntoChunks_windows_and_reconstruct_witness :
    reconstruct 1 (splitIntoChunks 2 1 ['a', 'b']) = ['a', 'b'] ∧
    (splitIntoChunks 2 1 ['a', 'b'])[0]? =
      if 0 * (2 - 1) < (['a', 'b'] : List Char).length then
        some (((['a', 'b'] : List Char).drop (0 * (2 - 1))).take 2)
      else none :=
  ⟨(splitIntoChunks_windows_and_reconstruct 2 1 (by omega) ['a', 'b']).1,
   (splitIntoChunks_windows_and_reconstruct 2 1 (by omega) ['a', 'b']).2 0⟩

/--
Claim C8, counterexample.  With `chunkSize = 10 > chunkOverlap = 8 ≥ 0` the
non-empty text `"abcde"` is shorter than `chunkSize`, yet the chunker
produces three chunks (`"abcde", "cde", "e"`), not exactly one chunk equal to
the whole text.
-/
theorem splitIntoChunks_short_text_counterexample :
    splitIntoChunks 10 8 ['a', 'b', 'c', 'd', 'e']
      = [['a', 'b', 'c', 'd', 'e'], ['c', 'd', 'e'], ['e']] ∧
    splitIntoChunks 10 8 ['a', 'b', 'c', 'd', 'e'] ≠ [['a', 'b', 'c', 'd', 'e']] := by
  constructor
  · simp [splitIntoChunks, splitGo]
  · simp [splitIntoChunks, splitGo]

/--
Claim C8, amended.  For the chunker with any `chunkSize > chunkOverlap ≥ 0`:
empty input text yields zero chunks, and any non-empty text of length at most
`chunkSize - chunkOverlap` (the window stride; in particular any non-empty
text no longer than the stride, not merely shorter than `chunkSize`) yields
exactly one chunk whose content equals the whole text.
-/
theorem splitIntoChunks_edge_cases (chunkSize chunkOverlap : Nat)
    (h : chunkOverlap < chunkSize) (text : List Char) :
    splitIntoChunks chunkSize chunkOverlap [] = [] ∧
    (text ≠ [] → text.length ≤ chunkSize - chunkOverlap →
      splitIntoChunks chunkSize chunkOverlap text = [text]) := by
  constructor
  · rw [splitIntoChunks, splitGo]
    simp
  · intro hne hlen
    rw [splitIntoChunks, splitGo]
    rw [dif_pos ⟨List.length_pos.mpr hne, h⟩]
    rw [splitGo, dif_neg (by omega)]
    simp only [List.drop_zero]
    rw [List.take_of_length_le (by omega)]

/-- Witness for C8 (amended) at `chunkSize = 3`, `chunkOverlap = 1`, text `"ab"`. -/
theorem splitIntoChunks_edge_cases_witness :
    splitIntoChunks 3 1 [] = [] ∧
    splitIntoChunks 3 1 ['a', 'b'] = [['a', 'b']] :=
  ⟨(splitIntoChunks_edge_cases 3 1 (by omega) ['a', 'b']).1,
   (splitIntoChunks_edge_cases 3 1 (by omega) ['a', 'b']).2 (by simp) (by simp)⟩

/-! ## Claim C7 (chunk-kind classification) -/

/-- A list starts with any prefix of a pattern it starts with. -/
theorem startsWith_of_startsWith_append (l p q : List Char)
    (h : startsWith l (p ++ q) = true) : startsWith l p = true := by
  induction p generalizing l with
  | nil => rw [startsWith]
  | cons x xs ih =>
    cases l with
    | nil => simp [startsWith] at h
    | cons c cs =>
      rw [List.cons_append, startsWith, Bool.and_eq_true] at h
      rw [startsWith, Bool.and_eq_true]
      exact ⟨h.1, ih cs h.2⟩

/-- Concatenating anything after a pattern keeps the pattern a prefix. -/
theorem startsWith_append_left (p l : List Char) : startsWith (p ++ l) p = true := by
  induction p with
  | nil => rw [startsWith]
  | cons x xs ih =>
    rw [List.cons_append, startsWith, Bool.and_eq_true]
    exact ⟨by simp, ih⟩

/--
Trimming preserves a two-character non-whitespace prefix: if a text starts
with the two non-space characters `c1 c2`, then so does its trimmed form.
-/
theorem jsTrim_startsWith_pair (c1 c2 : Char) (h1 : isJsSpace c1 = false)
    (h2 : isJsSpace c2 = false) (l : List Char)
    (h : startsWith l [c1, c2] = true) :
    startsWith (jsTrim l) [c1, c2] = true := by
  cases l with
  | nil => simp [startsWith] at h
  | cons a t0 =>
    cases t0 with
    | nil => simp [startsWith] at h
    | cons b t =>
      simp only [startsWith, Bool.and_eq_true, beq_iff_eq] at h
      obtain ⟨rfl, rfl, -⟩ := h
      rw [jsTrim, List.dropWhile_cons]
      simp only [h1, Bool.false_eq_true, if_false]
      rw [show (a :: b :: t).reverse = t.reverse ++ [b, a] by simp]
      rw [List.dropWhile_append]
      by_cases he : (List.dropWhile isJsSpace t.reverse).isEmpty
      · rw [if_pos he]
        have hkeep : List.dropWhile isJsSpace [b, a] = [b, a] := by
          rw [List.dropWhile_cons]
          simp [h2]
        rw [hkeep]
        simp [startsWith]
      · rw [if_neg he]
        rw [List.reverse_append]
        simpa using startsWith_append_left [a, b]
          ((List.dropWhile isJsSpace t.reverse).reverse)

/--
Claim C7, counterexample.  The chunk `" //x"` does not begin with a
block-comment opener nor with a line-comment opener (it begins with a space),
so the claim classifies it `code`; `detectChunkType` classifies it `comment`
because the source first trims the content.
-/
theorem detectChunkType_counterexample :
    detectChunkType [' ', '/', '/', 'x'] = ChunkType.comment ∧
    startsWith [' ', '/', '/', 'x'] ['/', '*', '*'] = false ∧
    startsWith [' ', '/', '/', 'x'] ['/', '*'] = false ∧
    startsWith [' ', '/', '/', 'x'] ['/', '/'] = false ∧
    ChunkType.comment ≠ ChunkType.code := by
  refine ⟨?_, by decide, by decide, by decide, by decide⟩
  decide

/--
Claim C7, amended.  The chunk's kind is classified from the leading lexical
markers of its content after trimming surrounding whitespace: if the trimmed
content begins with the block-comment opener `/*` (in particular with `/**`)
the chunk is classified `documentation`; if it begins with the line-comment
opener `//` it is classified `comment`; and any other chunk is classified
`code`.  A chunk whose untrimmed content already begins with `/*` or `//` is
classified the same way.
-/
theorem detectChunkType_spec (content : List Char) :
    (startsWith (jsTrim content) ['/', '*'] = true →
      detectChunkType content = ChunkType.documentation) ∧
    (startsWith (jsTrim content) ['/', '/'] = true →
      detectChunkType content = ChunkType.comment) ∧
    (startsWith (jsTrim content) ['/', '*'] = false →
      startsWith (jsTrim content) ['/', '/'] = false →
      detectChunkType content = ChunkType.code) ∧
    (startsWith content ['/', '*'] = true →
      detectChunkType content = ChunkType.documentation) ∧
    (startsWith content ['/', '/'] = true →
      detectChunkType content = ChunkType.comment) := by
  have hdoc : startsWith (jsTrim content) ['/', '*'] = true →
      detectChunkType content = ChunkType.documentation := by
    intro hst
    rw [detectChunkType, if_pos (by rw [hst, Bool.or_true])]
  have hcom : startsWith (jsTrim content) ['/', '/'] = true →
      detectChunkType content = ChunkType.comment := by
    intro hst
    have hns : startsWith (jsTrim content) ['/', '*'] = false := by
      cases hq : jsTrim content with
      | nil =>
        rw [hq] at hst
        simp [startsWith] at hst
      | cons a t =>
        rw [hq] at hst
        cases t with
        | nil => simp [startsWith] at hst
        | cons b t' =>
          simp only [startsWith, Bool.and_eq_true, beq_iff_eq] at hst
          obtain ⟨-, rfl, -⟩ := hst
          simp [startsWith]
    have hns3 : startsWith (jsTrim content) ['/', '*', '*'] = false := by
      by_contra hc
      rw [Bool.not_eq_false] at hc
      have hp := startsWith_of_startsWith_append (jsTrim content) ['/', '*'] ['*'] hc
      rw [hp] at hns
      simp at hns
    rw [detectChunkType, if_neg (by rw [hns, hns3]; simp), if_pos hst]
  refine ⟨hdoc, hcom, ?_, ?_, ?_⟩
  · intro hns hnc
    have hns3 : startsWith (jsTrim content) ['/', '*', '*'] = false := by
      by_contra hc
      rw [Bool.not_eq_false] at hc
      have hp := startsWith_of_startsWith_append (jsTrim content) ['/', '*'] ['*'] hc
      rw [hp] at hns
      simp at hns
    rw [detectChunkType, if_neg (by rw [hns, hns3]; simp), if_neg (by rw [hnc]; simp)]
  · intro hst
    exact hdoc (jsTrim_startsWith_pair '/' '*' (by decide) (by decide) content hst)
  · intro hst
    exact hcom (jsTrim_startsWith_pair '/' '/' (by decide) (by decide) content hst)

/-- Witness for C7 (amended): concrete chunks of each kind. -/
theorem detectChunkType_spec_witness :
    detectChunkType ['/', '*', '*', ' ', 'd'] = ChunkType.documentation ∧
    detectChunkType ['/', '/', ' ', 'c'] = ChunkType.comment ∧
    detectChunkType ['l', 'e', 't'] = ChunkType.code :=
  ⟨(detectChunkType_spec ['/', '*', '*', ' ', 'd']).2.2.2.1 (by decide),
   (detectChunkType_spec ['/', '/', ' ', 'c']).2.2.2.2 (by decide),
   (detectChunkType_spec ['l', 'e', 't']).2.2.1 (by decide) (by decide)⟩

/-! ## Vector store (src/vectorStore/index.ts) -/

/--
Embedding of `VectorStore.cosineSimilarity` (index.ts lines 59–75) over an
arbitrary field, with the square-root function passed as a parameter
(`Math.sqrt` is `Real.sqrt` at `α = ℝ`).  Vectors of unequal length raise
`Error('Vectors must have same length')`, modelled as `Except.error`;
otherwise the source's index loop accumulates the dot product and the two
squared norms, modelled as a left fold over the zipped vectors, and returns
`dotProduct / (sqrt normA * sqrt normB)`.
-/
def cosineSimilarity {α : Type} [Field α] (sqrt : α → α) (a b : List α) :
    Except String α :=
  if a.length = b.length then
    Except.ok
      (((a.zip b).foldl
          (fun acc p => (acc.1 + p.1 * p.2, acc.2.1 + p.1 * p.1, acc.2.2 + p.2 * p.2))
          ((0 : α), (0 : α), (0 : α))).1 /
        (sqrt ((a.zip b).foldl
          (fun acc p => (acc.1 + p.1 * p.2, acc.2.1 + p.1 * p.1, acc.2.2 + p.2 * p.2))
          ((0 : α), (0 : α), (0 : α))).2.1 *
         sqrt ((a.zip b).foldl
          (fun acc p => (acc.1 + p.1 * p.2, acc.2.1 + p.1 * p.1, acc.2.2 + p.2 * p.2))
          ((0 : α), (0 : α), (0 : α))).2.2))
  else
    Except.error ("Vectors must have same length")

/-- Unfolding of the accumulator loop of `cosineSimilarity`. -/
theorem simFold_eq {α : Type} [Field α] :
    ∀ (l : List (α × α)) (d na nb : α),
      l.foldl (fun acc p => (acc.1 + p.1 * p.2, acc.2.1 + p.1 * p.1, acc.2.2 + p.2 * p.2))
          (d, na, nb)
        = (d + (l.map fun p => p.1 * p.2).sum,
           na + (l.map fun p => p.1 * p.1).sum,
           nb + (l.map fun p => p.2 * p.2).sum)
  | [], d, na, nb => by simp
  | p :: t, d, na, nb => by
    simp only [List.foldl_cons, List.map_cons, List.sum_cons]
    rw [simFold_eq t]
    refine Prod.ext ?_ (Prod.ext ?_ ?_) <;> simp <;> ring

/-- Sums over zipped equal-length vectors agree with the claim's sums. -/
theorem zip_sums {α : Type} [Field α] :
    ∀ (a b : List α), a.length = b.length →
      ((a.zip b).map fun p => p.1 * p.2) = List.zipWith (fun x y => x * y) a b ∧
      ((a.zip b).map fun p => p.1 * p.1) = a.map (fun x => x * x) ∧
      ((a.zip b).map fun p => p.2 * p.2) = b.map (fun x => x * x)
  | [], [], _ => by simp
  | [], _ :: _, h => by simp at h
  | _ :: _, [], h => by simp at h
  | x :: a, y :: b, h => by
    have ih := zip_sums a b (by simpa using h)
    simp only [List.zip_cons_cons, List.map_cons, List.zipWith_cons_cons]
    exact ⟨by rw [ih.1], by rw [ih.2.1], by rw [ih.2.2]⟩

/--
Claim C2.  For every pair of real vectors of equal length the store's cosine
similarity equals `(Σ aᵢ·bᵢ) / (‖a‖·‖b‖)` with `‖v‖ = √(Σ vᵢ²)`, and for
every pair of unequal length it raises `Vectors must have same length`.
-/
theorem cosineSimilarity_spec (a b : List ℝ) :
    (a.length = b.length →
      cosineSimilarity Real.sqrt a b =
        Except.ok ((List.zipWith (fun x y => x * y) a b).sum /
          (Real.sqrt ((a.map fun x => x * x).sum) *
           Real.sqrt ((b.map fun x => x * x).sum)))) ∧
    (a.length ≠ b.length →
      cosineSimilarity Real.sqrt a b = Except.error ("Vectors must have same length")) := by
  constructor
  · intro h
    rw [cosineSimilarity, if_pos h, simFold_eq]
    obtain ⟨h1, h2, h3⟩ := zip_sums a b h
    rw [h1, h2, h3]
    simp
  · intro h
    rw [cosineSimilarity, if_neg h]

/-- Witness for C2 at `a = [1]`, `b = [1]` (equal length) and `a = [1]`, `b = [1, 0]`. -/
theorem cosineSimilarity_spec_witness :
    cosineSimilarity Real.sqrt [(1 : ℝ)] [(1 : ℝ)] =
      Except.ok ((List.zipWith (fun x y => x * y) [(1 : ℝ)] [(1 : ℝ)]).sum /
        (Real.sqrt (([(1 : ℝ)].map fun x => x * x).sum) *
         Real.sqrt (([(1 : ℝ)].map fun x => x * x).sum))) ∧
    cosineSimilarity Real.sqrt [(1 : ℝ)] [(1 : ℝ), 0] =
      Except.error ("Vectors must have same length") :=
  ⟨(cosineSimilarity_spec [(1 : ℝ)] [(1 : ℝ)]).1 rfl,
   (cosineSimilarity_spec [(1 : ℝ)] [(1 : ℝ), 0]).2 (by simp)⟩

/-- A stored document of the collection (interface `VectorDocument`). -/
structure VectorDocument (α μ : Type) where
  id : List Char
  content : List Char
  metadata : μ
  embedding : List α

/-- A search result (interface `SearchResult`). -/
structure SearchResult (α μ : Type) where
  content : List Char
  metadata : μ
  similarity : α

/--
Scoring step of `VectorStore.search`: compute the cosine similarity of the
query embedding against every stored document (the source's
`Promise.all(this.documents.map ...)`; the first similarity error rejects the
whole batch, preserving document order otherwise).
-/
def scoreAll {α μ : Type} [Field α] (sqrt : α → α) (queryEmbedding : List α) :
    List (VectorDocument α μ) → Except String (List (VectorDocument α μ × α))
  | [] => Except.ok []
  | d :: ds =>
    match cosineSimilarity sqrt queryEmbedding d.embedding with
    | Except.error e => Except.error e
    | Except.ok s =>
      match scoreAll sqrt queryEmbedding ds with
      | Except.error e => Except.error e
      | Except.ok rest => Except.ok ((d, s) :: rest)

/--
Embedding of `VectorStore.search` (index.ts lines 120–147).  The query has
already been embedded (the source calls `generateEmbedding(query)`; the
encoder is external, so the model receives the query embedding directly).
An empty collection short-circuits to `[]`; otherwise every document is
scored, sorted descending by similarity (`sort((a, b) => b.similarity -
a.similarity)`, modelled as a merge sort with the corresponding total
order), truncated to `limit`, and projected to `SearchResult`s.
-/
def search {α μ : Type} [LinearOrderedField α] (sqrt : α → α)
    (documents : List (VectorDocument α μ)) (queryEmbedding : List α)
    (limit : Nat) : Except String (List (SearchResult α μ)) :=
  if documents.length = 0 then Except.ok []
  else
    match scoreAll sqrt queryEmbedding documents with
    | Except.error e => Except.error e
    | Except.ok results =>
      Except.ok
        (((results.mergeSort fun x y => decide (y.2 ≤ x.2)).take limit).map
          fun r => { content := r.1.content, metadata := r.1.metadata, similarity := r.2 })

/-- Every scored pair comes from a stored document, with its similarity. -/
theorem scoreAll_mem {α μ : Type} [Field α] (sqrt : α → α) (q : List α) :
    ∀ (documents : List (VectorDocument α μ)) (results : List (VectorDocument α μ × α)),
      scoreAll sqrt q documents = Except.ok results →
      ∀ p ∈ results, ∃ d ∈ documents, p.1 = d ∧
        cosineSimilarity sqrt q d.embedding = Except.ok p.2 := by
  intro documents
  induction documents with
  | nil =>
    intro results h p hp
    rw [scoreAll] at h
    obtain rfl : ([] : List (VectorDocument α μ × α)) = results := by
      simpa using h
    simp at hp
  | cons d ds ih =>
    intro results h p hp
    rw [scoreAll] at h
    cases hc : cosineSimilarity sqrt q d.embedding with
    | error e => rw [hc] at h; simp at h
    | ok s =>
      rw [hc] at h
      cases hs : scoreAll sqrt q (μ := μ) ds with
      | error e => rw [hs] at h; simp at h
      | ok rest =>
        rw [hs] at h
        obtain rfl : (d, s) :: rest = results := by simpa using h
        rcases List.mem_cons.mp hp with rfl | hmem
        · exact ⟨d, List.mem_cons_self d ds, rfl, hc⟩
        · obtain ⟨d', hd', hpd', hcs⟩ := ih rest hs p hmem
          exact ⟨d', List.mem_cons_of_mem d hd', hpd', hcs⟩

/--
Claim C3.  Whenever `search` succeeds, it returns at most `limit` results,
ordered by non-increasing similarity, and every result's content and
metadata are copied from a stored document whose embedding's cosine
similarity with the query embedding is the result's similarity.
-/
theorem search_spec {α μ : Type} [LinearOrderedField α] (sqrt : α → α)
    (documents : List (VectorDocument α μ)) (queryEmbedding : List α) (limit : Nat)
    (res : List (SearchResult α μ))
    (h : search sqrt documents queryEmbedding limit = Except.ok res) :
    res.length ≤ limit ∧
    res.Pairwise (fun r s => s.similarity ≤ r.similarity) ∧
    ∀ r ∈ res, ∃ d ∈ documents, r.content = d.content ∧ r.metadata = d.metadata ∧
      cosineSimilarity sqrt queryEmbedding d.embedding = Except.ok r.similarity := by
  rw [search] at h
  by_cases hemp : documents.length = 0
  · rw [if_pos hemp] at h
    obtain rfl : ([] : List (SearchResult α μ)) = res := by simpa using h
    exact ⟨by simp, by simp, by simp⟩
  · rw [if_neg hemp] at h
    cases hs : scoreAll sqrt queryEmbedding documents with
    | error e => rw [hs] at h; simp at h
    | ok results =>
      rw [hs] at h
      obtain rfl : (((results.mergeSort fun x y => decide (y.2 ≤ x.2)).take limit).map
          fun r => SearchResult.mk (α := α) (μ := μ) r.1.content r.1.metadata r.2) = res := by
        simpa using h
      have hsorted : ((results.mergeSort fun x y => decide (y.2 ≤ x.2)).Pairwise
          fun x y => decide (y.2 ≤ x.2) = true) := by
        apply List.sorted_mergeSort
        · intro u v w huv hvw
          simp only [decide_eq_true_eq] at huv hvw ⊢
          exact le_trans hvw huv
        · intro u v
          simp only [Bool.or_eq_true, decide_eq_true_eq]
          exact le_total v.2 u.2
      have htake := hsorted.sublist (List.take_sublist limit _)
      refine ⟨?_, ?_, ?_⟩
      · rw [List.length_map, List.length_take]
        exact min_le_left _ _
      · rw [List.pairwise_map]
        refine htake.imp ?_
        intro u v huv
        simpa using of_decide_eq_true huv
      · intro r hr
        obtain ⟨p, hp, rfl⟩ := List.mem_map.mp hr
        have hp2 : p ∈ results := List.mem_mergeSort.mp (List.mem_of_mem_take hp)
        obtain ⟨d, hd, hpd, hcs⟩ :=
          scoreAll_mem sqrt queryEmbedding documents results hs p hp2
        exact ⟨d, hd, by rw [← hpd], by rw [← hpd], by rw [hcs]⟩

/--
Witness for C3: a one-document collection over `ℚ` searched with its own
embedding returns that document with similarity `1`.
-/
theorem search_spec_witness :
    (([⟨['c'], (), (1 : ℚ)⟩] : List (SearchResult ℚ Unit)).length ≤ 5) ∧
    ([⟨['c'], (), (1 : ℚ)⟩] : List (SearchResult ℚ Unit)).Pairwise
      (fun r s => s.similarity ≤ r.similarity) :=
  ⟨(search_spec (fun x => x) [⟨['i'], ['c'], (), [(1 : ℚ)]⟩] [(1 : ℚ)] 5
      [⟨['c'], (), (1 : ℚ)⟩] (by norm_num [search, scoreAll, cosineSimilarity])).1,
   (search_spec (fun x => x) [⟨['i'], ['c'], (), [(1 : ℚ)]⟩] [(1 : ℚ)] 5
      [⟨['c'], (), (1 : ℚ)⟩] (by norm_num [search, scoreAll, cosineSimilarity])).2.1⟩

/--
Claim C9.  For every query embedding and every limit, `search` on a store
whose collection is empty returns the empty sequence and does not raise an
error.
-/
theorem search_empty_collection {α μ : Type} [LinearOrderedField α] (sqrt : α → α)
    (queryEmbedding : List α) (limit : Nat) :
    search sqrt ([] : List (VectorDocument α μ)) queryEmbedding limit = Except.ok [] := by
  rw [search]
  simp

/-- A chunk handed to `VectorStore.addChunks` (interface `CodeChunk`). -/
structure CodeChunk (μ : Type) where
  content : List Char
  metadata : μ

/--
Decimal rendering of a natural number, modelling the JavaScript template
interpolation of the batch index in the id `chunk_${i}`.
-/
def decRepr (n : Nat) : List Char :=
  if n = 0 then ['0'] else ((Nat.digits 10 n).map Nat.digitChar).reverse

/-- The id assigned to the chunk at batch index `i`: the string `chunk_i`. -/
def mkId (i : Nat) : List Char :=
  ['c', 'h', 'u', 'n', 'k', '_'] ++ decRepr i

/-- The stored document built for the chunk at batch index `i`. -/
def mkDoc {α μ : Type} (i : Nat) (c : CodeChunk μ) (emb : List α) :
    VectorDocument α μ :=
  { id := mkId i, content := c.content, metadata := c.metadata, embedding := emb }

/--
Embedding of the `for` loop of `VectorStore.addChunks` (index.ts lines
81–95): for each chunk, compute its embedding (this may fail, modelled by
`embed` returning `Except`), and push a document with id `chunk_${i}` onto
`this.documents`.  The returned pair is the final in-memory document list
(pushes before a failure are kept — the `throw` does not roll them back) and
the error, if any.
-/
def addChunksLoop {α μ : Type} (embed : List Char → Except String (List α)) (i : Nat)
    (documents : List (VectorDocument α μ)) :
    List (CodeChunk μ) → List (VectorDocument α μ) × Option String
  | [] => (documents, none)
  | c :: cs =>
    match embed c.content with
    | Except.error e => (documents, some e)
    | Except.ok emb => addChunksLoop embed (i + 1) (documents ++ [mkDoc i c emb]) cs

/--
Embedding of `VectorStore.addChunks` (index.ts lines 77–105) together with
its call to `save` (lines 107–118): the loop runs, and only if every chunk
embedded successfully does the full-collection save run (second component
`true`); an embedding error is propagated (third component) and the save is
skipped.
-/
def addChunks {α μ : Type} (embed : List Char → Except String (List α))
    (documents : List (VectorDocument α μ)) (chunks : List (CodeChunk μ)) :
    List (VectorDocument α μ) × Bool × Option String :=
  match addChunksLoop embed 0 documents chunks with
  | (docs, none) => (docs, true, none)
  | (docs, some e) => (docs, false, some e)

/-- The documents a fully successful batch appends, starting at index `i`. -/
def mkBatch {α μ : Type} (i : Nat) :
    List (CodeChunk μ) → List (List α) → List (VectorDocument α μ)
  | [], _ => []
  | _ :: _, [] => []
  | c :: cs, v :: vs => mkDoc i c v :: mkBatch (i + 1) cs vs

/-- Decimal digit characters determine the digit. -/
theorem digitChar_inj_lt (a b : Nat) (ha : a < 10) (hb : b < 10)
    (h : Nat.digitChar a = Nat.digitChar b) : a = b := by
  interval_cases a <;> interval_cases b <;> revert h <;> decide

/-- Mapping `Nat.digitChar` over lists of decimal digits is injective. -/
theorem map_digitChar_inj :
    ∀ (l1 l2 : List Nat), (∀ x ∈ l1, x < 10) → (∀ x ∈ l2, x < 10) →
      l1.map Nat.digitChar = l2.map Nat.digitChar → l1 = l2
  | [], [], _, _, _ => rfl
  | [], _ :: _, _, _, h => by simp at h
  | _ :: _, [], _, _, h => by simp at h
  | x :: t1, y :: t2, h1, h2, h => by
    simp only [List.map_cons, List.cons.injEq] at h
    have hx : x = y :=
      digitChar_inj_lt x y (h1 x (List.mem_cons_self x t1)) (h2 y (List.mem_cons_self y t2)) h.1
    have ht : t1 = t2 :=
      map_digitChar_inj t1 t2 (fun z hz => h1 z (List.mem_cons_of_mem x hz))
        (fun z hz => h2 z (List.mem_cons_of_mem y hz)) h.2
    rw [hx, ht]

/-- The decimal rendering of a natural number is injective. -/
theorem decRepr_injective : Function.Injective decRepr := by
  intro m n h
  have hb : (1 : Nat) < 10 := by norm_num
  rw [decRepr, decRepr] at h
  by_cases hm : m = 0 <;> by_cases hn : n = 0
  · rw [hm, hn]
  · exfalso
    rw [if_pos hm, if_neg hn] at h
    have h' : (Nat.digits 10 n).map Nat.digitChar = ['0'] := by
      have := congrArg List.reverse h
      simpa using this.symm
    have hd : Nat.digits 10 n = [0] := by
      apply map_digitChar_inj
      · intro x hx
        exact Nat.digits_lt_base hb hx
      · intro x hx
        simp at hx
        omega
      · rw [h']
        decide
    have := Nat.ofDigits_digits 10 n
    rw [hd] at this
    simp [Nat.ofDigits] at this
    exact hn this.symm
  · exfalso
    rw [if_neg hm, if_pos hn] at h
    have h' : (Nat.digits 10 m).map Nat.digitChar = ['0'] := by
      have := congrArg List.reverse h
      simpa using this
    have hd : Nat.digits 10 m = [0] := by
      apply map_digitChar_inj
      · intro x hx
        exact Nat.digits_lt_base hb hx
      · intro x hx
        simp at hx
        omega
      · rw [h']
        decide
    have := Nat.ofDigits_digits 10 m
    rw [hd] at this
    simp [Nat.ofDigits] at this
    exact hm this.symm
  · rw [if_neg hm, if_neg hn] at h
    have h' : (Nat.digits 10 m).map Nat.digitChar = (Nat.digits 10 n).map Nat.digitChar := by
      have := congrArg List.reverse h
      simpa using this
    have hd : Nat.digits 10 m = Nat.digits 10 n := by
      apply map_digitChar_inj
      · intro x hx
        exact Nat.digits_lt_base hb hx
      · intro x hx
        exact Nat.digits_lt_base hb hx
      · exact h'
    have h1 := Nat.ofDigits_digits 10 m
    have h2 := Nat.ofDigits_digits 10 n
    rw [← h1, ← h2, hd]

/-- Chunk ids are injective in the batch index. -/
theorem mkId_injective : Function.Injective mkId := by
  intro i j h
  rw [mkId, mkId] at h
  exact decRepr_injective (by simpa using h)

/-- A fully successful loop appends exactly the batch documents. -/
theorem addChunksLoop_ok {α μ : Type} (embed : List Char → Except String (List α))
    (chunks : List (CodeChunk μ)) (vs : List (List α))
    (h : List.Forall₂ (fun c v => embed c.content = Except.ok v) chunks vs) :
    ∀ (i : Nat) (documents : List (VectorDocument α μ)),
      addChunksLoop embed i documents chunks = (documents ++ mkBatch i chunks vs, none) := by
  induction h with
  | nil =>
    intro i documents
    rw [addChunksLoop, mkBatch]
    simp
  | cons hcv htail ih =>
    intro i documents
    rw [addChunksLoop, hcv]
    refine (ih (i + 1) _).trans ?_
    rw [mkBatch]
    simp

/-- A loop hitting an embedding failure keeps the documents pushed so far. -/
theorem addChunksLoop_err {α μ : Type} (embed : List Char → Except String (List α))
    (pre : List (CodeChunk μ)) (vs : List (List α))
    (hpre : List.Forall₂ (fun c v => embed c.content = Except.ok v) pre vs)
    (c : CodeChunk μ) (e : String) (hc : embed c.content = Except.error e)
    (rest : List (CodeChunk μ)) :
    ∀ (i : Nat) (documents : List (VectorDocument α μ)),
      addChunksLoop embed i documents (pre ++ c :: rest)
        = (documents ++ mkBatch i pre vs, some e) := by
  induction hpre with
  | nil =>
    intro i documents
    rw [List.nil_append, addChunksLoop, hc, mkBatch]
    simp
  | cons hcv htail ih =>
    intro i documents
    rw [List.cons_append, addChunksLoop, hcv]
    refine (ih (i + 1) _).trans ?_
    rw [mkBatch]
    simp

/-- The ids of a batch starting at index `i` are `chunk_i, chunk_(i+1), …`. -/
theorem mkBatch_ids {α μ : Type} :
    ∀ (i : Nat) (chunks : List (CodeChunk μ)) (vs : List (List α)),
      chunks.length = vs.length →
      (mkBatch (α := α) i chunks vs).map (fun d => d.id)
        = (List.range' i chunks.length).map mkId
  | i, [], [], _ => rfl
  | i, [], _ :: _, h => by simp at h
  | i, _ :: _, [], h => by simp at h
  | i, c :: cs, v :: vs, h => by
    rw [mkBatch]
    simp only [List.map_cons, List.length_cons, List.range'_succ]
    rw [mkBatch_ids (i + 1) cs vs (by simpa using h)]
    rfl

/--
Claim C4, counterexample.  Two consecutive one-chunk `addChunks` batches on
the same store (no intervening `deleteCollection`) both assign the id
`chunk_0`: after the second batch the collection holds two documents with
the same id, so ids are not unique within the collection and documents from
different batches can share an id.
-/
theorem addChunks_id_collision_counterexample :
    ((addChunks (fun _ => Except.ok [(1 : Nat)])
        (addChunks (fun _ => Except.ok [(1 : Nat)])
          ([] : List (VectorDocument Nat Unit)) [⟨['x'], ()⟩]).1
        [⟨['y'], ()⟩]).1.map (fun d => d.id)) = [mkId 0, mkId 0] ∧
    ¬ (((addChunks (fun _ => Except.ok [(1 : Nat)])
        (addChunks (fun _ => Except.ok [(1 : Nat)])
          ([] : List (VectorDocument Nat Unit)) [⟨['x'], ()⟩]).1
        [⟨['y'], ()⟩]).1.map (fun d => d.id)).Nodup) := by
  have h1 : ((addChunks (fun _ => Except.ok [(1 : Nat)])
      (addChunks (fun _ => Except.ok [(1 : Nat)])
        ([] : List (VectorDocument Nat Unit)) [⟨['x'], ()⟩]).1
      [⟨['y'], ()⟩]).1.map (fun d => d.id)) = [mkId 0, mkId 0] := rfl
  refine ⟨h1, ?_⟩
  rw [h1]
  simp

/--
Claim C4, amended.  Within a single successful `addChunks` batch, ids are
assigned sequentially from the batch-local index (`chunk_0, chunk_1, …`), so
they are pairwise distinct within that batch; but the counter restarts at 0
for every batch, so two documents inserted by different `addChunks` batches
into the same collection can share an id.
-/
theorem addChunks_batch_local_ids {α μ : Type}
    (embed : List Char → Except String (List α))
    (documents : List (VectorDocument α μ)) (chunks : List (CodeChunk μ))
    (vs : List (List α))
    (h : List.Forall₂ (fun c v => embed c.content = Except.ok v) chunks vs) :
    addChunks embed documents chunks = (documents ++ mkBatch 0 chunks vs, true, none) ∧
    (mkBatch (α := α) 0 chunks vs).map (fun d => d.id)
      = (List.range' 0 chunks.length).map mkId ∧
    ((mkBatch (α := α) 0 chunks vs).map (fun d => d.id)).Nodup := by
  have hlen : chunks.length = vs.length := h.length_eq
  have hids := mkBatch_ids (α := α) (μ := μ) 0 chunks vs hlen
  refine ⟨?_, hids, ?_⟩
  · rw [addChunks, addChunksLoop_ok embed chunks vs h 0 documents]
  · rw [hids]
    exact (List.nodup_range' 0 chunks.length).map mkId_injective

/-- Witness for C4 (amended): a two-chunk batch gets ids `chunk_0`, `chunk_1`. -/
theorem addChunks_batch_local_ids_witness :
    addChunks (fun _ => Except.ok [(1 : Nat)]) ([] : List (VectorDocument Nat Unit))
        [⟨['x'], ()⟩, ⟨['y'], ()⟩]
      = ([] ++ mkBatch 0 [⟨['x'], ()⟩, ⟨['y'], ()⟩] [[1], [1]], true, none) ∧
    (mkBatch (α := Nat) (μ := Unit) 0 [⟨['x'], ()⟩, ⟨['y'], ()⟩] [[1], [1]]).map
        (fun d => d.id)
      = (List.range' 0 ([⟨['x'], ()⟩, ⟨['y'], ()⟩] : List (CodeChunk Unit)).length).map mkId ∧
    ((mkBatch (α := Nat) (μ := Unit) 0 [⟨['x'], ()⟩, ⟨['y'], ()⟩] [[1], [1]]).map
        (fun d => d.id)).Nodup :=
  addChunks_batch_local_ids (fun _ => Except.ok [(1 : Nat)]) []
    [⟨['x'], ()⟩, ⟨['y'], ()⟩] [[1], [1]]
    (List.Forall₂.cons rfl (List.Forall₂.cons rfl List.Forall₂.nil))

/--
Claim C10.  If embedding the chunk at batch index `i = pre.length` fails,
`addChunks` propagates the error (third component `some e`), the chunks
before index `i` remain appended to the in-memory collection (first
component), and the snapshot save does not run (second component `false`),
because the full-collection save runs only after every chunk in the batch
has been embedded.
-/
theorem addChunks_embed_failure {α μ : Type}
    (embed : List Char → Except String (List α))
    (documents : List (VectorDocument α μ)) (pre : List (CodeChunk μ))
    (vs : List (List α)) (c : CodeChunk μ) (e : String) (rest : List (CodeChunk μ))
    (hpre : List.Forall₂ (fun ch v => embed ch.content = Except.ok v) pre vs)
    (hc : embed c.content = Except.error e) :
    addChunks embed documents (pre ++ c :: rest)
      = (documents ++ mkBatch 0 pre vs, false, some e) := by
  rw [addChunks, addChunksLoop_err embed pre vs hpre c e hc rest 0 documents]

/--
Witness for C10: a three-chunk batch whose second chunk fails to embed keeps
only the first chunk's document, reports the error, and skips the save.
-/
theorem addChunks_embed_failure_witness :
    addChunks (fun s => if s = ['x'] then Except.ok [(1 : Nat)] else Except.error ("embed failed"))
        ([] : List (VectorDocument Nat Unit)) ([⟨['x'], ()⟩] ++ ⟨['y'], ()⟩ :: [⟨['z'], ()⟩])
      = ([] ++ mkBatch 0 [⟨['x'], ()⟩] [[1]], false, some "embed failed") :=
  addChunks_embed_failure
    (fun s => if s = ['x'] then Except.ok [(1 : Nat)] else Except.error ("embed failed"))
    [] [⟨['x'], ()⟩] [[1]] ⟨['y'], ()⟩ "embed failed" [⟨['z'], ()⟩]
    (List.Forall₂.cons rfl List.Forall₂.nil) rfl

/--
Embedding of the snapshot-loading part of `VectorStore.initialize` (index.ts
lines 29–49; the source method name is a reserved word here).  `read` is the
outcome of `fs.readFile` on the snapshot path (an `Except.error` when the
file is missing or unreadable) and `parse` is `JSON.parse` plus the
extraction of `stored.documents` (an `Except.error` on corrupt contents).
The single `try/catch` of the source catches **both** failures and starts
with an empty collection; no load error is ever propagated (the returned
`Option String` is the propagated error, always `none`).
-/
def initStore {α μ : Type} (read : Except String String)
    (parse : String → Except String (List (VectorDocument α μ))) :
    List (VectorDocument α μ) × Option String :=
  match read with
  | Except.error _ => ([], none)
  | Except.ok data =>
    match parse data with
    | Except.error _ => ([], none)
    | Except.ok docs => (docs, none)

/--
Claim C5, counterexample.  A snapshot file that is present (`read` succeeds
with its contents) but fails to parse is silently treated as an empty
collection with no propagated error, contradicting the claim that a parse
failure is propagated.
-/
theorem initStore_corrupt_counterexample :
    initStore (α := Nat) (μ := Unit) (Except.ok "corrupt")
        (fun _ => Except.error ("Unexpected token")) = ([], none) ∧
    (initStore (α := Nat) (μ := Unit) (Except.ok "corrupt")
        (fun _ => Except.error ("Unexpected token"))).2 = none :=
  ⟨rfl, rfl⟩

/--
Claim C5, amended.  During initialization, a missing snapshot file yields an
empty collection (not an error) — and a snapshot file that is present but
fails to parse is **also** silently treated as an empty collection: the
source's `catch` swallows read and parse failures alike, logs, and starts
fresh, so no load error is ever propagated.
-/
theorem initStore_spec {α μ : Type} (read : Except String String)
    (parse : String → Except String (List (VectorDocument α μ))) :
    (∀ e, read = Except.error e → initStore read parse = ([], none)) ∧
    (∀ data e, read = Except.ok data → parse data = Except.error e →
      initStore read parse = ([], none)) ∧
    (∀ data docs, read = Except.ok data → parse data = Except.ok docs →
      initStore read parse = (docs, none)) := by
  refine ⟨?_, ?_, ?_⟩
  · intro e he
    subst he
    rfl
  · intro data e hr hp
    subst hr
    show (match parse data with
      | Except.error _ => (([] : List (VectorDocument α μ)), (none : Option String))
      | Except.ok docs => (docs, none)) = ([], none)
    rw [hp]
  · intro data docs hr hp
    subst hr
    show (match parse data with
      | Except.error _ => (([] : List (VectorDocument α μ)), (none : Option String))
      | Except.ok docs => (docs, none)) = (docs, none)
    rw [hp]

/-- Witness for C5 (amended): the three load outcomes at concrete inputs. -/
theorem initStore_spec_witness :
    initStore (α := Nat) (μ := Unit) (Except.error "ENOENT")
        (fun _ => Except.ok []) = ([], none) ∧
    initStore (α := Nat) (μ := Unit) (Except.ok "bad")
        (fun _ => Except.error ("parse error")) = ([], none) ∧
    initStore (α := Nat) (μ := Unit) (Except.ok "good")
        (fun _ => Except.ok []) = ([], none) :=
  ⟨(initStore_spec (Except.error "ENOENT") (fun _ => Except.ok [])).1 "ENOENT" rfl,
   (initStore_spec (Except.ok "bad") (fun _ => Except.error ("parse error"))).2.1
      "bad" "parse error" rfl rfl,
   (initStore_spec (Except.ok "good") (fun _ => Except.ok [])).2.2 "good" [] rfl rfl⟩

/--
Embedding of `VectorStore.deleteCollection` (index.ts lines 149–156):
`this.documents = []` always happens, then `fs.unlink` runs inside a
`try/catch` whose catch block is empty (its comment reads "Ignore if file
doesn't exist", but it ignores **every** unlink failure).  `unlink` is the
outcome of `fs.unlink(this.storePath)`; the returned `Option String` is the
error propagated to the caller.
-/
def deleteCollection {α μ : Type} (unlink : Except String Unit) :
    List (VectorDocument α μ) × Option String :=
  match unlink with
  | Except.ok _ => ([], none)
  | Except.error _ => ([], none)

/--
Claim C6 (code bug).  `deleteCollection` clears the in-memory collection and
ignores a missing snapshot file, as the claim says — but a permission-denied
failure during removal is also swallowed, not propagated: the source's catch
block ignores every error even though its own comment says it only ignores
the file-not-found case.  This theorem evaluates the model at the failing
input: an `EACCES` unlink failure still returns success with no propagated
error.
-/
theorem deleteCollection_swallows_unlink_error :
    deleteCollection (α := Nat) (μ := Unit)
        (Except.error ("EACCES: permission denied")) = ([], none) ∧
    deleteCollection (α := Nat) (μ := Unit) (Except.error "ENOENT") = ([], none) ∧
    deleteCollection (α := Nat) (μ := Unit) (Except.ok ()) = ([], none) :=
  ⟨rfl, rfl, rfl⟩

/-- Witness for C9 at a concrete empty store over `ℚ`. -/
theorem search_empty_collection_witness :
    search (fun x => x) ([] : List (VectorDocument ℚ Unit)) [(1 : ℚ)] 5 = Except.ok [] :=
  search_empty_collection (fun x => x) [(1 : ℚ)] 5
